import Mathlib

/-!
Shallow embedding of `cw_farmer_v5.py` (CW Farmer v5.0).

Conventions used throughout this development:
* Python `set` becomes `Finset Nat`, Python `list` becomes `List`.
* Machine-level randomness (`random.choice`, `random.random`) is modelled by
  explicit parameters: a `pick` function (assumed to return a member of the
  list it is given) or a pre-drawn index / coin.
* Wall-clock time (`datetime.now()`) is an explicit `now : Int` parameter,
  measured in seconds; `timedelta(hours = h)` becomes `h * 3600`.
* Network calls are modelled by passing the decoded response (or a stream of
  responses, indexed by how many requests have been issued) as an argument.
* Python truthiness of the response fields is modelled exactly: a missing key
  (`none`), an empty string and the number `0` are all falsy.
* Fields of the source classes that are only ever printed (log text, `id`,
  `status` strings, timestamps inside `AccountStats`) are omitted; every field
  that any modelled method reads or writes is present.
-/

/-! ### Configuration constants (lines 72-81 of the source) -/

def TRUST_PER_MOMENT : Nat := 6

def MAX_MOMENTS : Nat := 5

def MOMENT_COOLDOWN_HOURS : Nat := 5

def TRUST_TARGET : Int := 65

def TOKEN_ID_MIN : Nat := 25

def TOKEN_ID_MAX : Nat := 1024

/-! ### SharedState (source lines 97-123)

`tried_tokens` is the set of globally taken IDs, `free_tokens` the ordered
list of known-free IDs (most recently confirmed first).  The `moment_states`
mapping and the `save`/`load` persistence methods are not touched by any
claim and are omitted. -/

structure SharedState where
  tried_tokens : Finset Nat
  free_tokens : List Nat
deriving DecidableEq

namespace SharedState

/-- `mark_taken` (lines 106-109): add to `tried_tokens`; remove the first
occurrence from `free_tokens` if present (Python `list.remove` inside an
`in` guard, which is exactly `List.erase`). -/
def mark_taken (s : SharedState) (token_id : Nat) : SharedState :=
  { s with tried_tokens := insert token_id s.tried_tokens,
           free_tokens := s.free_tokens.erase token_id }

/-- `mark_free` (lines 111-113): prepend to `free_tokens` only when the ID is
in neither `tried_tokens` nor `free_tokens`. -/
def mark_free (s : SharedState) (token_id : Nat) : SharedState :=
  if token_id ∉ s.tried_tokens ∧ token_id ∉ s.free_tokens then
    { s with free_tokens := token_id :: s.free_tokens }
  else s

/-- `get_next_token` (lines 115-123).  The front of `free_tokens` when it is
non-empty; otherwise `random.choice` over
`list(set(range(TOKEN_ID_MIN, TOKEN_ID_MAX + 1)) - tried_tokens)`, modelled by
the `pick` parameter applied to that candidate list; `none` when the range is
exhausted.  The method reads but never writes `self`, so its translation
returns the registry unchanged as the second component. -/
def get_next_token (pick : List Nat → Nat) (s : SharedState) :
    Option Nat × SharedState :=
  match s.free_tokens with
  | t :: _ => (some t, s)
  | [] =>
    let available := (List.range' TOKEN_ID_MIN (TOKEN_ID_MAX + 1 - TOKEN_ID_MIN)).filter
      (fun i => decide (i ∉ s.tried_tokens))
    if available = [] then (none, s) else (some (pick available), s)

/-- One registry mutation, for stating sequence-of-calls properties. -/
inductive RegOp where
  | markTaken (id : Nat)
  | markFree (id : Nat)
deriving DecidableEq

/-- Apply one `RegOp` to the registry. -/
def applyOp (s : SharedState) : RegOp → SharedState
  | .markTaken i => s.mark_taken i
  | .markFree i => s.mark_free i

/-- Apply a sequence of registry mutations, oldest first. -/
def applyOps (s : SharedState) (ops : List RegOp) : SharedState :=
  ops.foldl applyOp s

/-- The disjointness invariant of the spec: no ID is both taken and free. -/
def regDisjoint (s : SharedState) : Prop :=
  ∀ t ∈ s.free_tokens, t ∉ s.tried_tokens

/-- Disjointness together with `free_tokens` being duplicate-free (the latter
holds in every state reachable from the empty registry, because `mark_free`
refuses IDs already present). -/
def regInv (s : SharedState) : Prop :=
  regDisjoint s ∧ s.free_tokens.Nodup

instance (s : SharedState) : Decidable (regDisjoint s) := by
  unfold regDisjoint; infer_instance

instance (s : SharedState) : Decidable (regInv s) := by
  unfold regInv; infer_instance

lemma regInv_applyOp {s : SharedState} (h : regInv s) (op : RegOp) :
    regInv (applyOp s op) := by
  obtain ⟨hd, hn⟩ := h
  cases op with
  | markTaken i =>
    refine ⟨?_, ?_⟩
    · intro t ht
      simp only [applyOp, mark_taken] at ht ⊢
      rw [List.Nodup.mem_erase_iff hn] at ht
      simp only [Finset.mem_insert]
      rintro (rfl | hmem)
      · exact ht.1 rfl
      · exact hd t ht.2 hmem
    · simpa [applyOp, mark_taken] using hn.erase i
  | markFree i =>
    simp only [applyOp, mark_free]
    split
    · next hcond =>
      refine ⟨?_, ?_⟩
      · intro t ht
        rcases List.mem_cons.mp ht with rfl | hmem
        · exact hcond.1
        · exact hd t hmem
      · exact List.nodup_cons.mpr ⟨hcond.2, hn⟩
    · exact ⟨hd, hn⟩

lemma tried_subset_applyOp (s : SharedState) (op : RegOp) :
    s.tried_tokens ⊆ (applyOp s op).tried_tokens := by
  cases op with
  | markTaken i => exact Finset.subset_insert _ _
  | markFree i =>
    simp only [applyOp, mark_free]
    split <;> exact Finset.Subset.refl _

lemma tried_subset_applyOps (s : SharedState) (ops : List RegOp) :
    s.tried_tokens ⊆ (applyOps s ops).tried_tokens := by
  induction ops generalizing s with
  | nil => exact Finset.Subset.refl _
  | cons op rest ih =>
    exact (tried_subset_applyOp s op).trans (ih (applyOp s op))

lemma regInv_applyOps {s : SharedState} (h : regInv s) (ops : List RegOp) :
    regInv (applyOps s ops) := by
  induction ops generalizing s with
  | nil => exact h
  | cons op rest ih => exact ih (regInv_applyOp h op)

lemma mem_tried_of_markTaken_mem {s : SharedState} {i : Nat} {ops : List RegOp}
    (h : RegOp.markTaken i ∈ ops) : i ∈ (applyOps s ops).tried_tokens := by
  induction ops generalizing s with
  | nil => cases h
  | cons op rest ih =>
    rcases List.mem_cons.mp h with rfl | hmem
    · exact tried_subset_applyOps _ rest (Finset.mem_insert_self i _)
    · exact ih hmem

/-- C1 (amended): starting from any state where `tried_tokens` and
`free_tokens` are disjoint and `free_tokens` has no duplicates, every sequence
of `mark_taken`/`mark_free` calls keeps them disjoint, and an ID passed to
`mark_taken` at any point of the sequence is in `tried_tokens` at every later
point (it is never removed within a process lifetime). -/
theorem registry_disjoint_monotone (s : SharedState) (h : regInv s) :
    (∀ ops : List RegOp, regDisjoint (applyOps s ops)) ∧
    (∀ (i : Nat) (l1 l2 : List RegOp), RegOp.markTaken i ∈ l1 →
      i ∈ (applyOps s (l1 ++ l2)).tried_tokens) := by
  constructor
  · intro ops
    exact (regInv_applyOps h ops).1
  · intro i l1 l2 hmem
    have hsplit : applyOps s (l1 ++ l2) = applyOps (applyOps s l1) l2 := by
      simp [applyOps, List.foldl_append]
    rw [hsplit]
    exact tried_subset_applyOps _ l2 (mem_tried_of_markTaken_mem hmem)

/-- Witness for C1: at the empty registry, after
`[markTaken 30, markFree 30, markFree 31, markTaken 40]` disjointness holds
and both 30 and 40 remain taken. -/
theorem registry_disjoint_monotone_apply :
    regDisjoint (applyOps ⟨∅, []⟩
      [RegOp.markTaken 30, RegOp.markFree 30, RegOp.markFree 31, RegOp.markTaken 40]) ∧
    30 ∈ (applyOps ⟨∅, []⟩
      ([RegOp.markTaken 30] ++
       [RegOp.markFree 30, RegOp.markFree 31, RegOp.markTaken 40])).tried_tokens :=
  ⟨(registry_disjoint_monotone ⟨∅, []⟩ (by decide)).1 _,
   (registry_disjoint_monotone ⟨∅, []⟩ (by decide)).2 30 _ _ (by decide)⟩

/-- Counterexample to C1 exactly as stated: the state with `tried = ∅` and
`free = [7, 7]` satisfies the disjointness invariant, yet a single
`mark_taken 7` (which, like Python `list.remove`, deletes only the first
occurrence) leaves 7 both taken and free. -/
theorem registry_disjoint_counterexample :
    regDisjoint ⟨∅, [7, 7]⟩ ∧
    ¬ regDisjoint (applyOps ⟨∅, [7, 7]⟩ [RegOp.markTaken 7]) := by
  exact ⟨by decide, by decide⟩

/-- C2: for every registry state satisfying the disjointness invariant and
every valid random pick, `get_next_token` never returns a taken ID; with a
non-empty free list it returns the front element; with an empty free list it
returns `none` exactly when `taken` covers all of `[TOKEN_ID_MIN, TOKEN_ID_MAX]`,
and otherwise some in-range ID outside `taken`. -/
theorem get_next_token_contract (pick : List Nat → Nat)
    (hpick : ∀ l : List Nat, l ≠ [] → pick l ∈ l)
    (s : SharedState) (hs : regDisjoint s) :
    (∀ j, (get_next_token pick s).1 = some j → j ∉ s.tried_tokens) ∧
    (∀ t rest, s.free_tokens = t :: rest → (get_next_token pick s).1 = some t) ∧
    (s.free_tokens = [] →
      (∀ i, TOKEN_ID_MIN ≤ i → i ≤ TOKEN_ID_MAX → i ∈ s.tried_tokens) →
      (get_next_token pick s).1 = none) ∧
    (s.free_tokens = [] →
      ∀ i, TOKEN_ID_MIN ≤ i → i ≤ TOKEN_ID_MAX → i ∉ s.tried_tokens →
      ∃ j, (get_next_token pick s).1 = some j ∧
        TOKEN_ID_MIN ≤ j ∧ j ≤ TOKEN_ID_MAX ∧ j ∉ s.tried_tokens) := by
  refine ⟨?_, ?_, ?_, ?_⟩
  · intro j hj
    cases hfree : s.free_tokens with
    | cons t rest =>
      simp only [get_next_token, hfree, Option.some.injEq] at hj
      subst hj
      exact hs _ (by rw [hfree]; exact List.mem_cons_self _ _)
    | nil =>
      simp only [get_next_token, hfree] at hj
      split at hj
      · cases hj
      · next hne =>
        cases hj
        have hmem := hpick _ hne
        have := List.of_mem_filter hmem
        simpa using this
  · intro t rest hfree
    simp [get_next_token, hfree]
  · intro hfree hcover
    simp only [get_next_token, hfree]
    split
    · rfl
    · next hne =>
      exfalso
      apply hne
      rw [List.filter_eq_nil_iff]
      intro a ha
      have hrange := List.mem_range'_1.mp ha
      simp only [decide_eq_true_eq, Decidable.not_not]
      exact hcover a hrange.1 (by omega)
  · intro hfree i hlo hhi hfreei
    have hiav : i ∈ (List.range' TOKEN_ID_MIN (TOKEN_ID_MAX + 1 - TOKEN_ID_MIN)).filter
        (fun k => decide (k ∉ s.tried_tokens)) := by
      rw [List.mem_filter]
      refine ⟨List.mem_range'_1.mpr ⟨hlo, by omega⟩, by simpa using hfreei⟩
    have hne : (List.range' TOKEN_ID_MIN (TOKEN_ID_MAX + 1 - TOKEN_ID_MIN)).filter
        (fun k => decide (k ∉ s.tried_tokens)) ≠ [] := List.ne_nil_of_mem hiav
    have hpmem := hpick _ hne
    have hrange := List.mem_range'_1.mp (List.mem_of_mem_filter hpmem)
    have hnt : pick ((List.range' TOKEN_ID_MIN (TOKEN_ID_MAX + 1 - TOKEN_ID_MIN)).filter
        (fun k => decide (k ∉ s.tried_tokens))) ∉ s.tried_tokens := by
      have := List.of_mem_filter hpmem
      simpa using this
    refine ⟨_, ?_, hrange.1, by omega, hnt⟩
    simp only [get_next_token, hfree]
    rw [if_neg hne]

/-- Witness for C2: with nothing taken and an empty free list,
`get_next_token` returns an untaken in-range ID. -/
theorem get_next_token_contract_apply :
    ∃ j, (get_next_token (fun l => l.headD 0) ⟨∅, []⟩).1 = some j ∧
      TOKEN_ID_MIN ≤ j ∧ j ≤ TOKEN_ID_MAX ∧
      j ∉ (⟨∅, []⟩ : SharedState).tried_tokens :=
  (get_next_token_contract (fun l => l.headD 0)
      (fun l hl => by cases l with
        | nil => exact absurd rfl hl
        | cons a t => exact List.mem_cons_self a t)
      ⟨∅, []⟩ (by decide)).2.2.2 rfl 30 (by decide) (by decide) (by decide)

/-- C10: `get_next_token` is read-only — the registry it returns is the one it
was given — and therefore two successive draws (by the same or different
workers, with no intervening `mark_taken`/`mark_free`) from a non-empty free
list both return the same front ID. -/
theorem get_next_token_readonly (p1 p2 : List Nat → Nat) (s : SharedState) :
    ((get_next_token p1 s).2 = s) ∧
    (∀ t rest, s.free_tokens = t :: rest →
      (get_next_token p1 s).1 = some t ∧
      (get_next_token p2 ((get_next_token p1 s).2)).1 = some t) := by
  have hframe : (get_next_token p1 s).2 = s := by
    cases hfree : s.free_tokens with
    | cons t rest => simp [get_next_token, hfree]
    | nil =>
      simp only [get_next_token, hfree]
      split <;> rfl
  refine ⟨hframe, ?_⟩
  intro t rest hfree
  refine ⟨by simp [get_next_token, hfree], ?_⟩
  rw [hframe]
  simp [get_next_token, hfree]

/-- Witness for C10: with `free = [42, 33]`, two successive draws by two
different workers both see 42, and the registry is unchanged. -/
theorem get_next_token_readonly_apply :
    ((get_next_token (fun l => l.headD 0) ⟨∅, [42, 33]⟩).2 = ⟨∅, [42, 33]⟩) ∧
    (get_next_token (fun _ => 99)
      ((get_next_token (fun l => l.headD 0) ⟨∅, [42, 33]⟩).2)).1 = some 42 :=
  ⟨(get_next_token_readonly (fun l => l.headD 0) (fun _ => 99) ⟨∅, [42, 33]⟩).1,
   ((get_next_token_readonly (fun l => l.headD 0) (fun _ => 99) ⟨∅, [42, 33]⟩).2
      42 [33] rfl).2⟩

end SharedState

/-! ### Moment content templates (source lines 167-183) and MomentsManager
(source lines 428-486)

Wall-clock instants are `Int` seconds; `timedelta(hours = MOMENT_COOLDOWN_HOURS)`
is `MOMENT_COOLDOWN_HOURS * 3600` seconds.  `datetime.now()` at the moment of
the call is the explicit `now` argument.  The two random draws inside
`generate_content` (template choice, emoji coin and choice) are pre-drawn
indices/coin passed in. -/

def MOMENT_TEMPLATES : List String := [
  "Just earned some CW tokens! The grind continues 🚀",
  "Working on my trust score today. Steady progress!",
  "Another day of mining. Building that portfolio!",
  "Exploring the ClawPlaza ecosystem. Great community!",
  "Trust score grinding in progress. NFT soon!",
  "CW mining update: making good progress today!",
  "Just passed another milestone! 💪",
  "Learning new strategies. Always improving!",
  "Community highlight: everyone\x27s so supportive!",
  "Weekend mining session active. Let\x27s go!",
  "Reflection on my mining journey. Good progress!",
  "Setting new goals for this week. Level up time!",
  "Appreciating the ClawPlaza community! 🙌",
  "Mining tip: consistency is everything!",
  "Celebrating small wins. Every CW counts!"]

namespace MomentsManager

/-- `timedelta(hours=MOMENT_COOLDOWN_HOURS)` in seconds. -/
def MOMENT_COOLDOWN_SECS : Int := MOMENT_COOLDOWN_HOURS * 3600

/-- The mutable per-account scheduler state (`self.posted`, `self.last_post`).
The `client` field is the per-account gateway and carries no state the claims
touch. -/
structure State where
  posted : Nat
  last_post : Option Int
deriving DecidableEq

/-- `can_post` (lines 436-445).  The cooldown reason string in the source also
interpolates the remaining time; the claims only depend on the boolean, so the
reason is kept as a constant prefix. -/
def can_post (m : State) (now : Int) : Bool × String :=
  if MAX_MOMENTS ≤ m.posted then (false, "Max moments reached")
  else
    match m.last_post with
    | some lp =>
      if now - lp < MOMENT_COOLDOWN_SECS then (false, "Cooldown") else (true, "Ready")
    | none => (true, "Ready")

/-- The emoji suffixes of `generate_content` (line 459). -/
def MOMENT_EMOJIS : List String := [" 💪", " 🎯", " ⚡", " 🔥", " ✨", " 🚀"]

/-- `generate_content` (lines 455-460): a random template, suffixed with a
random emoji with even odds.  `ti`/`ei` are the pre-drawn `random.choice`
indices and `coin` the pre-drawn `random.random() > 0.5` outcome. -/
def generate_content (ti : Nat) (coin : Bool) (ei : Nat) : String :=
  let content := MOMENT_TEMPLATES.getD ti ""
  if coin then content ++ MOMENT_EMOJIS.getD ei "" else content

/-- The gateway response to the social post, as seen by `post`: only its
truthy `success` flag is inspected, the rest is carried opaquely.  A transport
error dict (C8) has no `success` key, i.e. `success = false`. -/
structure SocialResponse where
  success : Bool
  error : Option String
deriving DecidableEq

/-- The value returned by `post` (lines 462-486). -/
inductive PostResult where
  /-- `{"success": False, "error": reason}` when `can_post` says no. -/
  | blocked (reason : String)
  /-- the success dict: content, `TRUST_PER_MOMENT`, remaining quota. -/
  | ok (content : String) (trust_earned : Nat) (moments_remaining : Nat)
  /-- the raw gateway result, returned verbatim when it has no success flag. -/
  | gateway (r : SocialResponse)
deriving DecidableEq

/-- `post` (lines 462-486). -/
def post (m : State) (now : Int) (ti : Nat) (coin : Bool) (ei : Nat)
    (result : SocialResponse) : State × PostResult :=
  let cp := can_post m now
  if cp.1 = false then (m, .blocked cp.2)
  else
    let content := generate_content ti coin ei
    if result.success then
      ({ posted := m.posted + 1, last_post := some now },
       .ok content TRUST_PER_MOMENT (MAX_MOMENTS - (m.posted + 1)))
    else (m, .gateway result)

/-- C4: `post` increments the posted count and stamps the last-post time
exactly once, precisely when `can_post` allows and the gateway response
carries a confirmed success flag; in every other case the scheduler state is
returned unchanged (no partial increment), and on success the trust-earned
amount and remaining quota are reported. -/
theorem post_atomicity (m : State) (now : Int) (ti : Nat) (coin : Bool)
    (ei : Nat) (result : SocialResponse) :
    ((post m now ti coin ei result).1 =
        { posted := m.posted + 1, last_post := some now } ↔
      ((can_post m now).1 = true ∧ result.success = true)) ∧
    ((post m now ti coin ei result).1 = m ↔
      ¬ ((can_post m now).1 = true ∧ result.success = true)) ∧
    (((can_post m now).1 = true ∧ result.success = true) →
      (post m now ti coin ei result).2 =
        .ok (generate_content ti coin ei) TRUST_PER_MOMENT
          (MAX_MOMENTS - (m.posted + 1))) := by
  obtain ⟨p, lp⟩ := m
  cases hcan : (can_post ⟨p, lp⟩ now).1 <;>
    cases hsucc : result.success <;>
      simp_all [post, State.mk.injEq]

/-- Witness for C4 at a concrete scheduler: a ready scheduler plus a
confirmed success yields exactly one increment and stamps the clock, and the
success payload reports the trust and remaining quota. -/
theorem post_atomicity_apply :
    ((post ⟨1, some 0⟩ 99999 2 true 1 ⟨true, none⟩).1 =
        { posted := 2, last_post := some 99999 } ↔
      ((can_post ⟨1, some 0⟩ 99999).1 = true ∧ (true : Bool) = true)) ∧
    (post ⟨1, some 0⟩ 99999 2 true 1 ⟨true, none⟩).2 =
      .ok (generate_content 2 true 1) TRUST_PER_MOMENT (MAX_MOMENTS - 2) :=
  ⟨(post_atomicity ⟨1, some 0⟩ 99999 2 true 1 ⟨true, none⟩).1,
   (post_atomicity ⟨1, some 0⟩ 99999 2 true 1 ⟨true, none⟩).2.2
      ⟨by decide, rfl⟩⟩

/-- C7: `can_post` is false whenever the posted count has reached
`MAX_MOMENTS`, regardless of the clock; under quota it is false exactly while
less than the 5-hour cooldown has elapsed since the last post, true otherwise
(including when no post was ever made); and `post` never decreases the posted
count, so once the quota is reached `can_post` stays false for that instance. -/
theorem can_post_gating (m : State) (now lp now2 : Int) (ti : Nat)
    (coin : Bool) (ei : Nat) (r : SocialResponse) :
    (MAX_MOMENTS ≤ m.posted → (can_post m now).1 = false) ∧
    (m.posted < MAX_MOMENTS → m.last_post = some lp →
      now - lp < MOMENT_COOLDOWN_SECS → (can_post m now).1 = false) ∧
    (m.posted < MAX_MOMENTS → m.last_post = some lp →
      MOMENT_COOLDOWN_SECS ≤ now - lp → (can_post m now).1 = true) ∧
    (m.posted < MAX_MOMENTS → m.last_post = none → (can_post m now).1 = true) ∧
    (m.posted ≤ (post m now2 ti coin ei r).1.posted) := by
  refine ⟨?_, ?_, ?_, ?_, ?_⟩
  · intro h
    simp [can_post, h]
  · intro h hlp hcd
    simp [can_post, Nat.not_le.mpr h, hlp, hcd]
  · intro h hlp hcd
    simp [can_post, Nat.not_le.mpr h, hlp, Int.not_lt.mpr hcd]
  · intro h hlp
    simp [can_post, Nat.not_le.mpr h, hlp]
  · by_cases hcan : (can_post m now2).1 = true
    · by_cases hsucc : r.success = true
      · simp [post, hcan, hsucc]
      · simp [post, hcan, hsucc]
    · simp only [post, Bool.not_eq_true] at hcan ⊢
      rw [if_pos hcan]

/-- Witness for C7 at a concrete scheduler: quota exhausted blocks forever,
cooldown blocks, elapsed cooldown enables, and `post` keeps the count at 5. -/
theorem can_post_gating_apply :
    ((can_post ⟨5, some 0⟩ 999999).1 = false) ∧
    ((can_post ⟨2, some 1000⟩ 2000).1 = false) ∧
    ((can_post ⟨2, some 1000⟩ 20000).1 = true) ∧
    ((can_post ⟨0, none⟩ 0).1 = true) ∧
    (5 : Nat) ≤ (post ⟨5, some 0⟩ 999999 0 false 0 ⟨true, none⟩).1.posted :=
  ⟨(can_post_gating ⟨5, some 0⟩ 999999 0 999999 0 false 0 ⟨true, none⟩).1
      (by decide),
   (can_post_gating ⟨2, some 1000⟩ 2000 1000 0 0 false 0 ⟨true, none⟩).2.1
      (by decide) rfl (by decide),
   (can_post_gating ⟨2, some 1000⟩ 20000 1000 0 0 false 0 ⟨true, none⟩).2.2.1
      (by decide) rfl (by decide),
   (can_post_gating ⟨0, none⟩ 0 0 0 0 false 0 ⟨true, none⟩).2.2.2.1
      (by decide) rfl,
   (can_post_gating ⟨5, some 0⟩ 0 0 999999 0 false 0 ⟨true, none⟩).2.2.2.2⟩

end MomentsManager

/-! ### LLMClient._validate_answer (source lines 291-312)

`answer.split()` (Python, no separator) splits on runs of whitespace and
drops empty pieces; it is modelled at the character level by `wordsAux`.
`" ".join(words[:n])` is `joinWords` on the truncated word list.  The two
regular expressions `exactly\s+(\d+)\s+words` and
`between\s+(\d+)\s+and\s+(\d+)\s+words` (both `re.IGNORECASE`, `re.search`)
contain no alternation, so leftmost search with maximal-munch for `\s+` and
`\d+` coincides with Python regex semantics; they are implemented literally by
`searchExactly` / `searchBetween`. -/

namespace LLMClient

/-- Python `str.isspace` characters relevant to `split()` (ASCII). -/
def pyIsSpace (c : Char) : Bool :=
  c = ' ' ∨ c = '\t' ∨ c = '\n' ∨ c = '\r' ∨ c = '\x0b' ∨ c = '\x0c'

/-- Accumulator-style splitter: `wordsAux cs acc` splits `cs` on whitespace
runs, with `acc` the reversed current partial word.  `wordsAux cs []` equals
Python `"".join(cs).split()` as a list of character lists. -/
def wordsAux : List Char → List Char → List (List Char)
  | [], acc => if acc = [] then [] else [acc.reverse]
  | c :: cs, acc =>
    if pyIsSpace c then
      if acc = [] then wordsAux cs [] else acc.reverse :: wordsAux cs []
    else wordsAux cs (c :: acc)

/-- `s.split()` for a Lean string, as character lists. -/
def pyWords (s : String) : List (List Char) := wordsAux s.toList []

/-- `" ".join(ws)` at the character level. -/
def joinWords : List (List Char) → List Char
  | [] => []
  | [w] => w
  | w :: ws => w ++ ' ' :: joinWords ws

/-- Case-insensitive character comparison (`re.IGNORECASE`). -/
def lowerEq (a b : Char) : Bool := a.toLower = b.toLower

/-- Match a literal pattern case-insensitively, returning the rest. -/
def matchLit : List Char → List Char → Option (List Char)
  | [], cs => some cs
  | _ :: _, [] => none
  | p :: ps, c :: cs => if lowerEq c p then matchLit ps cs else none

/-- Match `\s+` (one or more whitespace), returning the rest. -/
def matchSpaces1 : List Char → Option (List Char)
  | [] => none
  | c :: cs => if pyIsSpace c then some (cs.dropWhile pyIsSpace) else none

/-- Digit-run value: `int` of the matched `(\d+)` group. -/
def digitsToNat (ds : List Char) : Nat :=
  ds.foldl (fun n c => n * 10 + (c.toNat - 48)) 0

/-- Match `(\d+)`, returning the numeric value of the group and the rest. -/
def matchNumber (cs : List Char) : Option (Nat × List Char) :=
  let ds := cs.takeWhile Char.isDigit
  if ds = [] then none else some (digitsToNat ds, cs.dropWhile Char.isDigit)

/-- Match `exactly\s+(\d+)\s+words` anchored at the start of `cs`. -/
def matchExactlyAt (cs : List Char) : Option Nat :=
  (matchLit "exactly".toList cs).bind fun r1 =>
  (matchSpaces1 r1).bind fun r2 =>
  (matchNumber r2).bind fun p =>
  (matchSpaces1 p.2).bind fun r3 =>
  (matchLit "words".toList r3).map fun _ => p.1

/-- `re.search(r"exactly\s+(\d+)\s+words", prompt, re.IGNORECASE)`, yielding
`int(m.group(1))` of the leftmost match. -/
def searchExactly : List Char → Option Nat
  | [] => none
  | c :: cs =>
    match matchExactlyAt (c :: cs) with
    | some n => some n
    | none => searchExactly cs

/-- Match `between\s+(\d+)\s+and\s+(\d+)\s+words` anchored at the start. -/
def matchBetweenAt (cs : List Char) : Option (Nat × Nat) :=
  (matchLit "between".toList cs).bind fun r1 =>
  (matchSpaces1 r1).bind fun r2 =>
  (matchNumber r2).bind fun p1 =>
  (matchSpaces1 p1.2).bind fun r3 =>
  (matchLit "and".toList r3).bind fun r4 =>
  (matchSpaces1 r4).bind fun r5 =>
  (matchNumber r5).bind fun p2 =>
  (matchSpaces1 p2.2).bind fun r6 =>
  (matchLit "words".toList r6).map fun _ => (p1.1, p2.1)

/-- `re.search(r"between\s+(\d+)\s+and\s+(\d+)\s+words", prompt,
re.IGNORECASE)`, yielding `(int(m.group(1)), int(m.group(2)))` of the
leftmost match. -/
def searchBetween : List Char → Option (Nat × Nat)
  | [] => none
  | c :: cs =>
    match matchBetweenAt (c :: cs) with
    | some p => some p
    | none => searchBetween cs

/-- `_validate_answer` (lines 291-312): truncate the answer to `n` words when
the prompt demands exactly `n` and the answer is longer, then truncate to the
upper bound when the prompt demands a bounded range and the (possibly already
truncated) answer exceeds it. -/
def _validate_answer (prompt answer : String) : String :=
  let answer1 :=
    match searchExactly prompt.toList with
    | some n =>
      let words := wordsAux answer.toList []
      if n < words.length then String.mk (joinWords (words.take n)) else answer
    | none => answer
  match searchBetween prompt.toList with
  | some q =>
    let words := wordsAux answer1.toList []
    if q.2 < words.length then String.mk (joinWords (words.take q.2)) else answer1
  | none => answer1

lemma wordsAux_words_ok : ∀ (cs acc : List Char),
    (∀ c ∈ acc, pyIsSpace c = false) →
    ∀ w ∈ wordsAux cs acc, w ≠ [] ∧ ∀ c ∈ w, pyIsSpace c = false := by
  intro cs
  induction cs with
  | nil =>
    intro acc hacc w hw
    by_cases h : acc = []
    · simp [wordsAux, h] at hw
    · simp only [wordsAux, if_neg h, List.mem_singleton] at hw
      subst hw
      refine ⟨by simpa using h, ?_⟩
      intro c hc
      exact hacc c (List.mem_reverse.mp hc)
  | cons c cs ih =>
    intro acc hacc w hw
    by_cases hsp : pyIsSpace c = true
    · by_cases h : acc = []
      · simp only [wordsAux, hsp, if_pos h, ite_true] at hw
        exact ih [] (by intro x hx; cases hx) w hw
      · simp only [wordsAux, hsp, if_neg h, ite_true, List.mem_cons] at hw
        rcases hw with rfl | hw
        · refine ⟨by simpa using h, ?_⟩
          intro x hx
          exact hacc x (List.mem_reverse.mp hx)
        · exact ih [] (by intro x hx; cases hx) w hw
    · have hcf : pyIsSpace c = false := by simpa using hsp
      simp only [wordsAux, hcf, Bool.false_eq_true, ite_false] at hw
      refine ih (c :: acc) ?_ w hw
      intro x hx
      rcases List.mem_cons.mp hx with rfl | hx
      · exact hcf
      · exact hacc x hx

lemma wordsAux_append_word (w : List Char) (hw : ∀ c ∈ w, pyIsSpace c = false) :
    ∀ (rest acc : List Char),
    wordsAux (w ++ rest) acc = wordsAux rest (w.reverse ++ acc) := by
  induction w with
  | nil => intro rest acc; simp
  | cons c cs ih =>
    intro rest acc
    have hc : pyIsSpace c = false := hw c (List.mem_cons_self c cs)
    simp only [List.cons_append, wordsAux, hc, ite_false, Bool.false_eq_true,
      List.append_eq]
    rw [ih (fun x hx => hw x (List.mem_cons_of_mem c hx)) rest (c :: acc)]
    simp

lemma wordsAux_space_cons (rest acc : List Char) (hacc : acc ≠ []) :
    wordsAux (' ' :: rest) acc = acc.reverse :: wordsAux rest [] := by
  simp [wordsAux, pyIsSpace, hacc]

/-- Splitting the single-space join of non-empty whitespace-free words
recovers exactly those words. -/
lemma wordsAux_joinWords (ws : List (List Char))
    (hws : ∀ w ∈ ws, w ≠ [] ∧ ∀ c ∈ w, pyIsSpace c = false) :
    wordsAux (joinWords ws) [] = ws := by
  induction ws with
  | nil => simp [joinWords, wordsAux]
  | cons w ws ih =>
    obtain ⟨hne, hok⟩ := hws w (List.mem_cons_self w ws)
    cases ws with
    | nil =>
      have h2 := wordsAux_append_word w hok [] []
      rw [List.append_nil] at h2
      rw [show joinWords [w] = w from rfl, h2]
      simp [wordsAux, List.reverse_eq_nil_iff, hne]
    | cons w2 ws2 =>
      show wordsAux (w ++ ' ' :: joinWords (w2 :: ws2)) [] = w :: w2 :: ws2
      rw [wordsAux_append_word w hok (' ' :: joinWords (w2 :: ws2)) []]
      rw [List.append_nil, wordsAux_space_cons _ _ (by simpa [List.reverse_eq_nil_iff] using hne)]
      rw [List.reverse_reverse]
      exact congrArg (w :: ·) (ih fun x hx => hws x (List.mem_cons_of_mem w hx))

/-- Truncating to the first `n` words and re-joining with single spaces
yields a string whose word list is exactly those `n` words. -/
lemma pyWords_join_take (s : String) (n : Nat) :
    pyWords (String.mk (joinWords ((pyWords s).take n))) = (pyWords s).take n := by
  have hok := wordsAux_words_ok s.toList [] (by intro x hx; cases hx)
  exact wordsAux_joinWords _ fun w hw =>
    hok w (List.mem_of_mem_take hw)

/-- C6: word-count repair.  If the prompt demands exactly `n` words (and no
bounded range), an over-length answer is cut to exactly its first `n` words
and an answer of at most `n` words is returned unmodified; if the prompt
demands between `lo` and `hi` words (and no exact count), an answer longer
than `hi` words is cut to its first `hi` words and one of at most `hi` words
is returned unmodified. -/
theorem validate_answer_word_count (prompt answer : String) (n lo hi : Nat) :
    (searchExactly prompt.toList = some n → searchBetween prompt.toList = none →
      ((pyWords answer).length > n →
        pyWords (_validate_answer prompt answer) = (pyWords answer).take n ∧
        (pyWords (_validate_answer prompt answer)).length = n) ∧
      ((pyWords answer).length ≤ n → _validate_answer prompt answer = answer)) ∧
    (searchExactly prompt.toList = none →
      searchBetween prompt.toList = some (lo, hi) →
      ((pyWords answer).length > hi →
        pyWords (_validate_answer prompt answer) = (pyWords answer).take hi ∧
        (pyWords (_validate_answer prompt answer)).length = hi) ∧
      ((pyWords answer).length ≤ hi → _validate_answer prompt answer = answer)) := by
  constructor
  · intro hex hbet
    constructor
    · intro hlen
      have hval : _validate_answer prompt answer =
          String.mk (joinWords ((pyWords answer).take n)) := by
        simp only [_validate_answer, hex, hbet]
        rw [if_pos (by simp only [pyWords] at hlen; omega)]
        rfl
      rw [hval, pyWords_join_take]
      refine ⟨rfl, ?_⟩
      rw [List.length_take]
      simp only [pyWords] at hlen ⊢
      omega
    · intro hlen
      simp only [pyWords] at hlen
      simp only [_validate_answer, hex, hbet]
      rw [if_neg (by omega)]
  · intro hex hbet
    constructor
    · intro hlen
      have hval : _validate_answer prompt answer =
          String.mk (joinWords ((pyWords answer).take hi)) := by
        simp only [_validate_answer, hex, hbet]
        rw [if_pos (by simp only [pyWords] at hlen; omega)]
        rfl
      rw [hval, pyWords_join_take]
      refine ⟨rfl, ?_⟩
      rw [List.length_take]
      simp only [pyWords] at hlen ⊢
      omega
    · intro hlen
      simp only [pyWords] at hlen
      simp only [_validate_answer, hex, hbet]
      rw [if_neg (by omega)]

/-- Witness for C6 (spec scenario C): the prompt `"Write exactly 3 words"`
with the 4-word answer `"one two three four"` is repaired to exactly its
first 3 words, i.e. `"one two three"`. -/
theorem validate_answer_word_count_apply :
    pyWords (_validate_answer "Write exactly 3 words" "one two three four") =
      (pyWords "one two three four").take 3 ∧
    _validate_answer "Write exactly 3 words" "one two three four" =
      "one two three" :=
  ⟨(((validate_answer_word_count "Write exactly 3 words" "one two three four"
      3 0 0).1 (by decide) (by decide)).1 (by decide)).1,
   by decide⟩

end LLMClient

/-! ### HttpClient._execute (source lines 250-263)

The single `opener.open` transport attempt is modelled by a
`TransportOutcome` value; `json.loads` is the abstract `parse` parameter,
returning either a decoded value or the text of the raised decode exception.
A decode failure on the happy path is caught by the generic
`except Exception` handler (yielding `{"error": str(e)}`); a read/decode/parse
failure inside the `HTTPError` handler is caught by the bare `except:`
(yielding `{"error": str(e), "status": e.code}`). -/

namespace HttpClient

/-- What the one `opener.open(req, timeout)` call did. -/
inductive TransportOutcome where
  /-- 2xx response with the decoded body text. -/
  | success (body : String)
  /-- `urllib.error.HTTPError` with status `code`, message `str(e)`, and
  `e.read().decode()` as `body` (`none` when reading the body itself raises). -/
  | httpError (code : Nat) (msg : String) (body : Option String)
  /-- any other exception, message `str(e)`. -/
  | failure (msg : String)
deriving DecidableEq

/-- The dictionary `_execute` returns: either a parsed JSON value or an
error dictionary `{"error": msg}` / `{"error": msg, "status": code}`. -/
inductive HttpResult (α : Type) where
  | parsed (v : α)
  | errorDict (msg : String) (status : Option Nat)
deriving DecidableEq

/-- `_execute` (lines 250-263). -/
def _execute {α : Type} (parse : String → Except String α)
    (o : TransportOutcome) : HttpResult α :=
  match o with
  | .success body =>
    match parse body with
    | .ok v => .parsed v
    | .error msg => .errorDict msg none
  | .httpError code msg body =>
    match body with
    | some b =>
      if b = "" then .errorDict msg (some code)
      else
        match parse b with
        | .ok v => .parsed v
        | .error _ => .errorDict msg (some code)
    | none => .errorDict msg (some code)
  | .failure msg => .errorDict msg none

/-- C8: `_execute` is total (a function into `HttpResult`, so it never
raises) and normalizes every outcome of its single transport attempt: a
transport failure becomes `{error: msg}`; an HTTP error status with a
non-empty JSON-parsable body becomes that parsed body, and otherwise
`{error: msg, status: code}`; a 2xx body is returned parsed verbatim, with a
decode failure there becoming `{error: msg}`. -/
theorem execute_normalization {α : Type} (parse : String → Except String α)
    (o : TransportOutcome) :
    ((∃ v, _execute parse o = .parsed v) ∨
      (∃ msg st, _execute parse o = .errorDict msg st)) ∧
    (∀ msg, o = .failure msg → _execute parse o = .errorDict msg none) ∧
    (∀ body v, o = .success body → parse body = .ok v →
      _execute parse o = .parsed v) ∧
    (∀ body msg, o = .success body → parse body = .error msg →
      _execute parse o = .errorDict msg none) ∧
    (∀ code msg b v, o = .httpError code msg (some b) → b ≠ "" →
      parse b = .ok v → _execute parse o = .parsed v) ∧
    (∀ code msg b, o = .httpError code msg (some b) →
      (b = "" ∨ ∃ e, parse b = .error e) →
      _execute parse o = .errorDict msg (some code)) ∧
    (∀ code msg, o = .httpError code msg none →
      _execute parse o = .errorDict msg (some code)) := by
  refine ⟨?_, ?_, ?_, ?_, ?_, ?_, ?_⟩
  · cases o with
    | success body =>
      cases hp : parse body with
      | ok v => exact .inl ⟨v, by simp [_execute, hp]⟩
      | error msg => exact .inr ⟨msg, none, by simp [_execute, hp]⟩
    | httpError code msg body =>
      cases body with
      | some b =>
        by_cases hb : b = ""
        · exact .inr ⟨msg, some code, by simp [_execute, hb]⟩
        · cases hp : parse b with
          | ok v => exact .inl ⟨v, by simp [_execute, hb, hp]⟩
          | error e => exact .inr ⟨msg, some code, by simp [_execute, hb, hp]⟩
      | none => exact .inr ⟨msg, some code, by simp [_execute]⟩
    | failure msg => exact .inr ⟨msg, none, by simp [_execute]⟩
  · rintro msg rfl
    simp [_execute]
  · rintro body v rfl hp
    simp [_execute, hp]
  · rintro body msg rfl hp
    simp [_execute, hp]
  · rintro code msg b v rfl hb hp
    simp [_execute, hb, hp]
  · rintro code msg b rfl hcase
    rcases hcase with rfl | ⟨e, hp⟩
    · simp [_execute]
    · by_cases hb : b = ""
      · simp [_execute, hb]
      · simp [_execute, hb, hp]
  · rintro code msg rfl
    simp [_execute]

/-- Witness for C8 with a concrete parser: an HTTP 429 whose body parses
is returned as the parsed error body, and a transport failure becomes an
error dictionary. -/
theorem execute_normalization_apply :
    _execute (fun s => if s = "ratelimited" then .ok (429 : Nat) else .error "bad json")
      (.httpError 429 "Too Many Requests" (some "ratelimited")) = .parsed 429 ∧
    _execute (fun s => if s = "ratelimited" then .ok (429 : Nat) else .error "bad json")
      (.failure "timed out") = .errorDict "timed out" none :=
  ⟨(execute_normalization
      (fun s => if s = "ratelimited" then .ok (429 : Nat) else .error "bad json")
      (.httpError 429 "Too Many Requests" (some "ratelimited"))).2.2.2.2.1
      429 "Too Many Requests" "ratelimited" 429 rfl (by decide) rfl,
   (execute_normalization
      (fun s => if s = "ratelimited" then .ok (429 : Nat) else .error "bad json")
      (.failure "timed out")).2.1 "timed out" rfl⟩

end HttpClient

/-! ### AccountFarmer (source lines 189-223 and 492-662)

`AccountStats` keeps every field that `mine`/`handle_challenge` read or
write; the purely presentational fields (`id`, `status`, timestamps) are
omitted.  A decoded gateway response to an `/inscribe` call is a
`MineResponse`; Python truthiness of its fields is modelled by `Option` with
the source `.get` defaults.  `handle_challenge` issues one answer submission
per recursion level, so its network input is a stream `chResp : Nat →
MineResponse` indexed by the recursion depth at which the submission is made;
the LLM answer text and its quote-stripping sanitization do not influence any
modelled branch (the oracle already fixes the server reaction) and are not
represented. -/

namespace AccountFarmer

/-- The per-worker counters of `AccountStats` (source lines 189-203). -/
structure AccountStats where
  trust_score : Int
  cw_balance : Int
  cw_staked : Int
  total_mines : Nat
  moments_posted : Nat
  challenges_passed : Nat
  challenges_failed : Nat
  tokens_taken : Nat
deriving DecidableEq

/-- A server-issued challenge object: `challenge.get("id")` and
`challenge.get("prompt", "")`. -/
structure Challenge where
  id : Option String
  prompt : String
deriving DecidableEq

/-- A decoded `/inscribe` response.  `status` is only present on HTTP-error
fallbacks (C8); absent keys are `none`.  Print-only keys (`taken_by`,
`message`, `nft_hit`) are omitted. -/
structure MineResponse where
  status : Option Nat
  id_status : Option String
  error : Option String
  hash : Option String
  cw_earned : Option Int
  cw_balance : Option Int
  trust_score : Option Int
  retry_after : Option Nat
  challenge : Option Challenge
deriving DecidableEq

/-- `result.get("status", 0) in (500, 502, 503, 504)` (lines 560, 631). -/
def isServerError5xx (r : MineResponse) : Bool :=
  ([500, 502, 503, 504] : List Nat).contains (r.status.getD 0)

/-- The Python truthiness of `result.get("hash") or result.get("cw_earned")`
(lines 576, 635): a missing key, an empty hash string and a zero earned
amount are all falsy. -/
def successFlag (r : MineResponse) : Bool :=
  decide (r.hash.getD "" ≠ "") || decide (r.cw_earned.getD 0 ≠ 0)

/-- The truthiness test `challenge_id and prompt` of lines 604-607 (and of
`new_ch.get("id") and new_ch.get("prompt")` on line 652): the id must be a
present, non-empty string and the prompt non-empty. -/
def challengeValid (ch : Challenge) : Bool :=
  decide (ch.id.getD "" ≠ "") && decide (ch.prompt ≠ "")

/-- A response that continues a `CHALLENGE_FAILED` chain: not a 5xx, not a
truthy success, error code `CHALLENGE_FAILED`, and carrying a fresh
well-formed replacement challenge. -/
def failedFresh (r : MineResponse) : Bool :=
  !isServerError5xx r && !successFlag r &&
    decide (r.error = some "CHALLENGE_FAILED") &&
    (match r.challenge with
     | some ch => challengeValid ch
     | none => false)

/-- The classified value returned by `mine`/`handle_challenge`. -/
inductive MineResult where
  /-- `{"success": False, "error": "all_tokens_taken"}` -/
  | allTokensTaken
  /-- `{"success": False, "error": "server_error", "retry_after": 60}` -/
  | serverError (retry_after : Nat)
  /-- `{"success": False, "error": "token_taken", "token_id": id}` -/
  | tokenTaken (token_id : Nat)
  /-- `{"success": True, ..., **result}`; `challenge_cooldown` is the flag set
  only on the challenge path (line 644). -/
  | success (token_id : Nat) (challenge_cooldown : Bool) (payload : MineResponse)
  /-- `{"success": False, "error": "rate_limited", "retry_after": n}` -/
  | rateLimited (retry_after : Nat)
  /-- `{"success": False, "error": "invalid_challenge"}` -/
  | invalidChallenge
  /-- `{"success": False, "error": "challenge_failed"}` -/
  | challengeFailed
  /-- `{"success": False, "error": "challenge_used"}` -/
  | challengeUsed
  /-- the raw unclassified response, returned verbatim (lines 598, 662). -/
  | unknown (payload : MineResponse)
deriving DecidableEq

/-- `handle_challenge` (lines 600-662).  `challenge_response` is the
`challenge` field of the triggering response (`.get("challenge", {})` yields
the invalid empty challenge when absent); `depth` is the recursion counter;
`chResp d` is the decoded reply to the answer submitted at depth `d`.
Recursion happens only when the reply is `CHALLENGE_FAILED`, embeds a fresh
well-formed challenge, and `depth < 3`; the depth strictly increases, which
is exactly the termination measure below. -/
def handle_challenge (chResp : Nat → MineResponse) (shared : SharedState)
    (stats : AccountStats) (token_id : Nat)
    (challenge_response : Option Challenge) (depth : Nat) :
    SharedState × AccountStats × MineResult :=
  let challenge := challenge_response.getD ⟨none, ""⟩
  if challengeValid challenge = false then (shared, stats, .invalidChallenge)
  else
    let result := chResp depth
    if isServerError5xx result then (shared, stats, .serverError 60)
    else if successFlag result then
      (shared.mark_free token_id,
       { stats with
           challenges_passed := stats.challenges_passed + 1,
           total_mines := stats.total_mines + 1,
           cw_balance := result.cw_balance.getD stats.cw_balance,
           trust_score := result.trust_score.getD stats.trust_score },
       .success token_id true result)
    else if result.error = some "CHALLENGE_FAILED" then
      let stats1 := { stats with challenges_failed := stats.challenges_failed + 1 }
      match result.challenge with
      | some new_ch =>
        if h : challengeValid new_ch = true ∧ depth < 3 then
          handle_challenge chResp shared stats1 token_id (some new_ch) (depth + 1)
        else (shared, stats1, .challengeFailed)
      | none => (shared, stats1, .challengeFailed)
    else if result.error = some "CHALLENGE_USED" then (shared, stats, .challengeUsed)
    else (shared, stats, .unknown result)
termination_by 4 - depth
decreasing_by omega

/-- `mine` (lines 545-598).  `pick` models the random draw inside
`get_next_token`, `resp` the decoded reply to the inscription request, and
`chResp` the challenge-path reply stream.  `if not token_id` on line 550
treats both an absent and a zero ID as "no token". -/
def mine (pick : List Nat → Nat) (resp : MineResponse)
    (chResp : Nat → MineResponse) (shared : SharedState)
    (stats : AccountStats) : SharedState × AccountStats × MineResult :=
  let token_id := (SharedState.get_next_token pick shared).1.getD 0
  if token_id = 0 then (shared, stats, .allTokensTaken)
  else if isServerError5xx resp then (shared, stats, .serverError 60)
  else if resp.id_status = some "taken" then
    (shared.mark_taken token_id,
     { stats with tokens_taken := stats.tokens_taken + 1 },
     .tokenTaken token_id)
  else if resp.error = some "CHALLENGE_REQUIRED" then
    handle_challenge chResp shared stats token_id resp.challenge 0
  else if successFlag resp then
    (shared.mark_free token_id,
     { stats with
         total_mines := stats.total_mines + 1,
         cw_balance := resp.cw_balance.getD stats.cw_balance,
         trust_score := resp.trust_score.getD stats.trust_score },
     .success token_id false resp)
  else if resp.error = some "RATE_LIMITED" then
    (shared, stats, .rateLimited (resp.retry_after.getD 60))
  else (shared, stats, .unknown resp)

lemma handle_challenge_failed_le (k : Nat) :
    ∀ (depth : Nat), 3 ≤ depth + k →
    ∀ (chResp : Nat → MineResponse) (shared : SharedState) (stats : AccountStats)
      (token_id : Nat) (cr : Option Challenge),
      ((handle_challenge chResp shared stats token_id cr depth).2.1).challenges_failed
        ≤ stats.challenges_failed + (k + 1) := by
  induction k with
  | zero =>
    intro depth hd chResp shared stats token_id cr
    rw [handle_challenge.eq_def]
    dsimp only
    repeat' split
    all_goals try dsimp only
    all_goals omega
  | succ k ih =>
    intro depth hd chResp shared stats token_id cr
    rw [handle_challenge.eq_def]
    dsimp only
    repeat' split
    all_goals try dsimp only
    all_goals try omega
    · rename_i new_ch hceq h
      have h2 := ih (depth + 1) (by omega) chResp shared
        { stats with challenges_failed := stats.challenges_failed + 1 } token_id (some new_ch)
      have h3 : ({ stats with challenges_failed := stats.challenges_failed + 1 }
          : AccountStats).challenges_failed = stats.challenges_failed + 1 := rfl
      omega

lemma handle_challenge_chain (chResp : Nat → MineResponse)
    (hchain : ∀ n, failedFresh (chResp n) = true)
    (shared : SharedState) (token_id : Nat) :
    ∀ (k depth : Nat), depth + k = 3 →
    ∀ (stats : AccountStats) (ch : Challenge), challengeValid ch = true →
      handle_challenge chResp shared stats token_id (some ch) depth =
        (shared,
         { stats with challenges_failed := stats.challenges_failed + (k + 1) },
         .challengeFailed) := by
  intro k
  induction k with
  | zero =>
    intro depth hd stats ch hch
    have h := hchain depth
    simp only [failedFresh, Bool.and_eq_true, Bool.not_eq_true',
      decide_eq_true_eq] at h
    obtain ⟨⟨⟨h5xx, hsucc⟩, herr⟩, hfresh⟩ := h
    cases hc2 : (chResp depth).challenge with
    | none => rw [hc2] at hfresh; simp at hfresh
    | some ch2 =>
      rw [hc2] at hfresh
      dsimp only at hfresh
      rw [handle_challenge.eq_def]
      dsimp only
      rw [if_neg (by simp [hch]), if_neg (by simp [h5xx]),
        if_neg (by simp [hsucc]), if_pos herr, hc2]
      dsimp only
      rw [dif_neg (by rintro ⟨-, hlt⟩; omega)]
  | succ k ih =>
    intro depth hd stats ch hch
    have h := hchain depth
    simp only [failedFresh, Bool.and_eq_true, Bool.not_eq_true',
      decide_eq_true_eq] at h
    obtain ⟨⟨⟨h5xx, hsucc⟩, herr⟩, hfresh⟩ := h
    cases hc2 : (chResp depth).challenge with
    | none => rw [hc2] at hfresh; simp at hfresh
    | some ch2 =>
      rw [hc2] at hfresh
      dsimp only at hfresh
      rw [handle_challenge.eq_def]
      dsimp only
      rw [if_neg (by simp [hch]), if_neg (by simp [h5xx]),
        if_neg (by simp [hsucc]), if_pos herr, hc2]
      dsimp only
      rw [dif_pos ⟨hfresh, by omega⟩]
      rw [ih (depth + 1) (by omega) _ ch2 hfresh]
      simp only [Prod.mk.injEq, AccountStats.mk.injEq, true_and, and_true]
      omega

/-- C3: on a chain of `CHALLENGE_FAILED` replies each embedding a fresh
well-formed challenge, `handle_challenge` started at depth 0 follows
replacement challenges exactly 3 times beyond the initial attempt (4 failure
increments in total) and then reports `challengeFailed`; and on every reply
stream whatsoever a depth-0 call performs at most 4 attempts (the
`challenges_failed` counter grows by at most 4).  Termination for every
stream is established by the definition itself, whose well-founded measure
`4 - depth` decreases at each recursive call because the depth counter
strictly increases. -/
theorem handle_challenge_recursion_bound (chResp : Nat → MineResponse)
    (hchain : ∀ n, failedFresh (chResp n) = true)
    (shared : SharedState) (stats : AccountStats) (token_id : Nat)
    (ch : Challenge) (hch : challengeValid ch = true) :
    handle_challenge chResp shared stats token_id (some ch) 0 =
      (shared, { stats with challenges_failed := stats.challenges_failed + 4 },
       .challengeFailed) ∧
    ∀ (chResp2 : Nat → MineResponse) (sh : SharedState) (st : AccountStats)
      (tid : Nat) (cr : Option Challenge),
      ((handle_challenge chResp2 sh st tid cr 0).2.1).challenges_failed
        ≤ st.challenges_failed + 4 := by
  constructor
  · have h := handle_challenge_chain chResp hchain shared token_id 3 0 rfl stats ch hch
    simpa using h
  · intro chResp2 sh st tid cr
    have h := handle_challenge_failed_le 3 0 (by omega) chResp2 sh st tid cr
    simpa using h

/-- Witness for C3: a constant `CHALLENGE_FAILED`-with-fresh-challenge reply
stream makes a depth-0 `handle_challenge` stop with `challengeFailed` after
exactly 4 failed attempts. -/
theorem handle_challenge_recursion_bound_apply :
    handle_challenge
        (fun _ => ⟨none, none, some "CHALLENGE_FAILED", none, none, none, none,
          none, some ⟨some "c2", "Write exactly 5 words"⟩⟩)
        ⟨∅, []⟩ ⟨0, 0, 0, 0, 0, 0, 0, 0⟩ 77 (some ⟨some "c1", "Write a question"⟩) 0 =
      (⟨∅, []⟩,
       { (⟨0, 0, 0, 0, 0, 0, 0, 0⟩ : AccountStats) with
           challenges_failed := (⟨0, 0, 0, 0, 0, 0, 0, 0⟩ : AccountStats).challenges_failed + 4 },
       .challengeFailed) :=
  (handle_challenge_recursion_bound
      (fun _ => ⟨none, none, some "CHALLENGE_FAILED", none, none, none, none,
        none, some ⟨some "c2", "Write exactly 5 words"⟩⟩)
      (fun _ => (by decide :
        failedFresh ⟨none, none, some "CHALLENGE_FAILED", none, none, none,
          none, none, some ⟨some "c2", "Write exactly 5 words"⟩⟩ = true))
      ⟨∅, []⟩ ⟨0, 0, 0, 0, 0, 0, 0, 0⟩ 77
      ⟨some "c1", "Write a question"⟩ (by decide)).1

/-- C5 (amended): for a drawn token and a mining response carrying a
non-empty hash or a nonzero earned amount — and no taken status, no 5xx
status, and no recognized error code — `mine` marks the submitted ID free in
the shared registry, increments `total_mines` by exactly 1, overwrites the
cached balance and trust score with the response values when present
(keeping the old values otherwise), and reports success with the response
payload carried along.  (The original claim also covered a present-but-zero
`cw_earned` and would equally cover an empty `hash`; Python truthiness makes
the code treat those as non-success, see the counterexample.) -/
theorem mine_success_classification (pick : List Nat → Nat)
    (resp : MineResponse) (chResp : Nat → MineResponse)
    (shared : SharedState) (stats : AccountStats) (t : Nat)
    (hdraw : (SharedState.get_next_token pick shared).1 = some t) (ht : ¬ t = 0)
    (h5 : isServerError5xx resp = false)
    (htaken : resp.id_status ≠ some "taken")
    (herr1 : resp.error ≠ some "CHALLENGE_REQUIRED")
    (_herr2 : resp.error ≠ some "RATE_LIMITED")
    (_herr3 : resp.error ≠ some "CHALLENGE_FAILED")
    (_herr4 : resp.error ≠ some "CHALLENGE_USED")
    (hsucc : successFlag resp = true) :
    mine pick resp chResp shared stats =
      (shared.mark_free t,
       { stats with
           total_mines := stats.total_mines + 1,
           cw_balance := resp.cw_balance.getD stats.cw_balance,
           trust_score := resp.trust_score.getD stats.trust_score },
       .success t false resp) := by
  simp only [mine, hdraw, Option.getD_some]
  rw [if_neg ht, if_neg (by simp [h5]), if_neg htaken, if_neg herr1, if_pos hsucc]

/-- Witness for C5 (spec scenario B): the response
`{cw_earned: 15, cw_balance: 1000, trust_score: 12}` for drawn ID 77 marks 77
free, makes `total_mines` 1, balance 1000 and trust 12, and reports success. -/
theorem mine_success_classification_apply :
    mine (fun l => l.headD 0)
        ⟨none, none, none, none, some 15, some 1000, some 12, none, none⟩
        (fun _ => ⟨none, none, none, none, some 15, some 1000, some 12, none, none⟩)
        ⟨∅, [77]⟩ ⟨0, 0, 0, 0, 0, 0, 0, 0⟩ =
      (SharedState.mark_free ⟨∅, [77]⟩ 77,
       { (⟨0, 0, 0, 0, 0, 0, 0, 0⟩ : AccountStats) with
           total_mines := (⟨0, 0, 0, 0, 0, 0, 0, 0⟩ : AccountStats).total_mines + 1,
           cw_balance := (some (1000 : Int)).getD 0,
           trust_score := (some (12 : Int)).getD 0 },
       .success 77 false ⟨none, none, none, none, some 15, some 1000, some 12, none, none⟩) :=
  mine_success_classification (fun l => l.headD 0)
    ⟨none, none, none, none, some 15, some 1000, some 12, none, none⟩
    (fun _ => ⟨none, none, none, none, some 15, some 1000, some 12, none, none⟩)
    ⟨∅, [77]⟩ ⟨0, 0, 0, 0, 0, 0, 0, 0⟩ 77 rfl (by decide) (by decide) (by decide)
    (by decide) (by decide) (by decide) (by decide) (by decide)

/-- Counterexample to C5 as stated: the response whose only field is
`cw_earned = 0` does contain an earned amount and carries no taken status,
no 5xx status and no error code at all, yet `mine` classifies it as
`unknown` and leaves both the registry and the stats (in particular
`total_mines = 0`) completely unchanged, because Python truthiness treats a
zero `cw_earned` as falsy. -/
theorem mine_zero_earned_counterexample :
    ((⟨none, none, none, none, some 0, none, none, none, none⟩ : MineResponse).cw_earned
        = some 0 ∧
      (⟨none, none, none, none, some 0, none, none, none, none⟩ : MineResponse).id_status
        = none ∧
      (⟨none, none, none, none, some 0, none, none, none, none⟩ : MineResponse).status
        = none ∧
      (⟨none, none, none, none, some 0, none, none, none, none⟩ : MineResponse).error
        = none) ∧
    mine (fun l => l.headD 0)
        ⟨none, none, none, none, some 0, none, none, none, none⟩
        (fun _ => ⟨none, none, none, none, some 0, none, none, none, none⟩)
        ⟨∅, [77]⟩ ⟨0, 0, 0, 0, 0, 0, 0, 0⟩ =
      (⟨∅, [77]⟩, ⟨0, 0, 0, 0, 0, 0, 0, 0⟩,
       .unknown ⟨none, none, none, none, some 0, none, none, none, none⟩) :=
  ⟨⟨rfl, rfl, rfl, rfl⟩, by decide⟩

end AccountFarmer

/-! ### DashboardServer.get_stats (source lines 768-787)

Only the `summary` aggregates are modelled (the `accounts` list is each
worker's stats verbatim plus derived display fields, and `last_update` is the
wall clock).  Python computes `avg_trust` with float division; values here
are small integers, so it is modelled exactly as a rational. -/

namespace DashboardServer

/-- One farmer as the dashboard sees it: its stats and its `running` flag. -/
structure Farmer where
  stats : AccountFarmer.AccountStats
  running : Bool
deriving DecidableEq

/-- The `summary` object of `get_stats`. -/
structure StatsSummary where
  total_accounts : Nat
  completed : Nat
  total_cw : Int
  total_staked : Int
  total_mines : Nat
  avg_trust : ℚ
  total_moments : Nat
  total_challenges_passed : Nat
  total_challenges_failed : Nat
  running : Nat
deriving DecidableEq

/-- `get_stats` summary (lines 772-785). -/
def get_stats (farmers : List Farmer) : StatsSummary :=
  { total_accounts := farmers.length
    completed := farmers.countP (fun f => decide (TRUST_TARGET ≤ f.stats.trust_score))
    total_cw := (farmers.map (fun f => f.stats.cw_balance)).sum
    total_staked := (farmers.map (fun f => f.stats.cw_staked)).sum
    total_mines := (farmers.map (fun f => f.stats.total_mines)).sum
    avg_trust :=
      if farmers = [] then 0
      else (((farmers.map (fun f => f.stats.trust_score)).sum : Int) : ℚ) /
        (farmers.length : ℚ)
    total_moments := (farmers.map (fun f => f.stats.moments_posted)).sum
    total_challenges_passed := (farmers.map (fun f => f.stats.challenges_passed)).sum
    total_challenges_failed := (farmers.map (fun f => f.stats.challenges_failed)).sum
    running := farmers.countP (fun f => f.running) }

/-- The 3-worker fleet of the spec scenario, trust scores 10, 65 and 70. -/
def exampleFleet : List Farmer :=
  [⟨⟨10, 0, 0, 0, 0, 0, 0, 0⟩, true⟩,
   ⟨⟨65, 0, 0, 0, 0, 0, 0, 0⟩, true⟩,
   ⟨⟨70, 0, 0, 0, 0, 0, 0, 0⟩, true⟩]

/-- C9: `completed` counts the workers whose trust score is at or above the
target and `avg_trust` is the mean trust over all workers (0 for an empty
fleet); on the 3-worker fleet with trust 10, 65 and 70 against target 65,
`completed` is 2 and `avg_trust` is 145/3 = 48.333..., which is 48.33 when
rounded to two decimals. -/
theorem get_stats_summary :
    (∀ farmers : List Farmer,
      (get_stats farmers).completed =
        (farmers.filter (fun f => decide (TRUST_TARGET ≤ f.stats.trust_score))).length ∧
      (farmers = [] → (get_stats farmers).avg_trust = 0) ∧
      (farmers ≠ [] → (get_stats farmers).avg_trust * (farmers.length : ℚ) =
        (((farmers.map (fun f => f.stats.trust_score)).sum : Int) : ℚ))) ∧
    (get_stats exampleFleet).completed = 2 ∧
    (get_stats exampleFleet).avg_trust = 145 / 3 ∧
    round ((get_stats exampleFleet).avg_trust * 100) = (4833 : Int) := by
  have h3 : (get_stats exampleFleet).avg_trust = 145 / 3 := by
    simp only [get_stats, exampleFleet]
    rw [if_neg (by decide)]
    norm_num
  refine ⟨?_, by decide, h3, ?_⟩
  · intro farmers
    refine ⟨?_, ?_, ?_⟩
    · simp [get_stats, List.countP_eq_length_filter]
    · intro h
      simp [get_stats, h]
    · intro h
      have hlen : (farmers.length : ℚ) ≠ 0 :=
        Nat.cast_ne_zero.mpr (fun hz => h (List.length_eq_zero.mp hz))
      simp only [get_stats, if_neg h]
      field_simp
  · rw [h3]
    norm_num [round_eq]

/-- Witness for C9: on the 3-worker fleet the mean-characterization applies,
giving `avg_trust * 3 = 145`. -/
theorem get_stats_summary_apply :
    (get_stats exampleFleet).avg_trust * ((exampleFleet.length : Nat) : ℚ) =
      (((exampleFleet.map (fun f => f.stats.trust_score)).sum : Int) : ℚ) :=
  ((get_stats_summary.1 exampleFleet).2.2) (by decide)

end DashboardServer
